import Mathlib

/-!
Shallow embedding of the menu analysis and recommendation core of
src/menubot.tsx: the scoring engine (scoreItem), the ranking engine
(rankItems), the aggregation engine (sumPrice, sumMacros), the data
validator/repairer (validateMenuData) and the keyword categorization of the
dietary summarizer (generateDietaryInfo), together with proofs about them.

Raw, externally-sourced values are modelled by the JavaScript-value type
JVal (undefined, null, booleans, finite numbers as rationals, NaN, strings),
and the loose JavaScript coercions used by the source (truthiness, logical
or, nullish coalescing, ToNumber) are modelled explicitly.  Floating-point
numbers are modelled as rationals.
-/

namespace Menubot

/-- Model of a JavaScript runtime value as it can appear in a field of the
raw, AI-extracted analysis object: undefined, null, a boolean, a finite
number (modelled as a rational), the floating-point NaN, or a string. -/
inductive JVal where
  | undef
  | null
  | bool (b : Bool)
  | num (q : ℚ)
  | nan
  | str (s : String)
deriving DecidableEq

/-- JavaScript truthiness: undefined, null, false, 0, NaN and the empty
string are falsy; every other value is truthy. -/
def JVal.truthy : JVal → Bool
  | .undef => false
  | .null => false
  | .bool b => b
  | .num q => decide (q ≠ 0)
  | .nan => false
  | .str s => decide (s ≠ "")

/-- True exactly for numeric (non-NaN) values. -/
def JVal.isNum : JVal → Bool
  | .num _ => true
  | _ => false

/-- True exactly for null and undefined. -/
def JVal.isNullOrUndef : JVal → Bool
  | .null => true
  | .undef => true
  | _ => false

/-- JavaScript logical or. -/
def jor (a b : JVal) : JVal := if a.truthy then a else b

/-- JavaScript nullish coalescing. -/
def jcoalesce (a b : JVal) : JVal :=
  match a with
  | .undef => b
  | .null => b
  | _ => a

/-- String-to-number conversion used by the JavaScript ToNumber coercion.
The model covers the empty string (which converts to 0) and strings of
decimal digits; every other string is mapped to NaN (`none`). -/
def strToNumber (s : String) : Option ℚ :=
  if s.data.isEmpty then some 0
  else if s.data.all Char.isDigit then
    some ((s.data.foldl (fun n c => 10 * n + (c.toNat - 48)) 0 : ℕ) : ℚ)
  else none

/-- JavaScript ToNumber coercion; `none` stands for NaN. -/
def JVal.toNumber : JVal → Option ℚ
  | .undef => none
  | .null => some 0
  | .bool b => some (if b then 1 else 0)
  | .num q => some q
  | .nan => none
  | .str s => strToNumber s

/-- JavaScript numeric multiplication; NaN-propagating. -/
def jmul (a b : JVal) : JVal :=
  match a.toNumber, b.toNumber with
  | some x, some y => .num (x * y)
  | _, _ => .nan

/-- JavaScript numeric addition as used on the products inside the
calorie cross-check (both operands there are numbers or NaN). -/
def jadd (a b : JVal) : JVal :=
  match a.toNumber, b.toNumber with
  | some x, some y => .num (x + y)
  | _, _ => .nan

/-- JavaScript numeric subtraction; NaN-propagating. -/
def jsub (a b : JVal) : JVal :=
  match a.toNumber, b.toNumber with
  | some x, some y => .num (x - y)
  | _, _ => .nan

/-- JavaScript Math.abs. -/
def jabs (a : JVal) : JVal :=
  match a.toNumber with
  | some x => .num |x|
  | none => .nan

/-- JavaScript Math.round (round half toward positive infinity). -/
def jround (a : JVal) : JVal :=
  match a.toNumber with
  | some x => .num ((round x : ℤ) : ℚ)
  | none => .nan

/-- JavaScript numeric greater-than; false when either side is NaN. -/
def jgt (a b : JVal) : Bool :=
  match a.toNumber, b.toNumber with
  | some x, some y => decide (y < x)
  | _, _ => false

/-- JavaScript numeric less-than-or-equal; false when either side is NaN. -/
def jle (a b : JVal) : Bool :=
  match a.toNumber, b.toNumber with
  | some x, some y => decide (x ≤ y)
  | _, _ => false

/-- A raw menu item as it arrives from the external AI extraction step:
every field is an arbitrary JavaScript value, `undef` meaning the field is
absent.  The same shape also holds the items of a validated analysis,
because the repair in the source keeps whatever truthy value a field had. -/
structure RawItem where
  name : JVal := .undef
  description : JVal := .undef
  price : JVal := .undef
  calories : JVal := .undef
  protein_g : JVal := .undef
  carbs_g : JVal := .undef
  fat_g : JVal := .undef
deriving DecidableEq

/-- A suggested pairing (type Combo of the source). -/
structure Combo where
  title : String
  item_indices : List ℤ
  rationale : String
deriving DecidableEq

/-- The raw, loosely-typed analysis handed to validateMenuData.  The outer
Option of `items` is `none` when the field is missing or not a sequence;
an inner `none` entry is a null or undefined element of the items array,
whose property access inside the map callback raises a TypeError.
`health_rank` is `none` when missing or not an array, and its entries are
arbitrary JavaScript numbers, fractional values included.  Combos and notes
are carried through untouched by the validator, so they are kept typed. -/
structure RawAnalysis where
  items : Option (List (Option RawItem)) := none
  health_rank : Option (List ℚ) := none
  combos : List Combo := []
  notes : String := ""
deriving DecidableEq

/-- The analysis returned by validateMenuData. -/
structure Analysis where
  items : List RawItem
  health_rank : List ℚ
  combos : List Combo
  notes : String
deriving DecidableEq

/-- Re-injection of a validated analysis into the raw shape, for feeding it
to the validator again; the items of a validated analysis are all proper
objects. -/
def Analysis.toRaw (a : Analysis) : RawAnalysis :=
  { items := some (a.items.map some)
    health_rank := some a.health_rank
    combos := a.combos
    notes := a.notes }

/-- The left-to-right traversal the item map of validateMenuData performs on
the raw items array: it fails at the first null or undefined entry, whose
property access raises a TypeError. -/
def allSome : List (Option RawItem) → Option (List RawItem)
  | [] => some []
  | none :: _ => none
  | some x :: rest => (allSome rest).map fun l => x :: l

/-- The typed MenuItem shape declared in the source: optional fields are
`undefined` (`none`) or a number / string. -/
structure MenuItem where
  name : String
  description : Option String := none
  price : Option ℚ := none
  calories : Option ℚ := none
  protein_g : Option ℚ := none
  carbs_g : Option ℚ := none
  fat_g : Option ℚ := none
deriving DecidableEq

/-- Derived macro-nutrient sums (type MacroSummary of the source). -/
structure MacroSummary where
  calories : ℚ
  protein_g : ℚ
  carbs_g : ℚ
  fat_g : ℚ
deriving DecidableEq

/-- The all-zero macro summary, the reduce seed in the source. -/
def zeroMacros : MacroSummary :=
  { calories := 0, protein_g := 0, carbs_g := 0, fat_g := 0 }

/-- scoreItem of the source on typed items: nullish-coalesce each nutrition
field to 0 and combine linearly. -/
def scoreItem (it : MenuItem) : ℚ :=
  let p := it.protein_g.getD 0
  let cals := it.calories.getD 0
  let fat := it.fat_g.getD 0
  let carbs := it.carbs_g.getD 0
  p * 2 - fat * (8 / 10) - cals * (5 / 1000) - carbs * (3 / 10)

/-- scoreItem of the source applied to the loosely-typed items handled
inside validateMenuData; NaN scores are possible there. -/
def scoreItemR (it : RawItem) : JVal :=
  let p := jcoalesce it.protein_g (.num 0)
  let cals := jcoalesce it.calories (.num 0)
  let fat := jcoalesce it.fat_g (.num 0)
  let carbs := jcoalesce it.carbs_g (.num 0)
  jsub (jsub (jsub (jmul p (.num 2)) (jmul fat (.num (8 / 10))))
      (jmul cals (.num (5 / 1000)))) (jmul carbs (.num (3 / 10)))

/-- rankItems of the source on typed items: pair every index with its score,
sort by the comparator b.s - a.s (descending score), and keep the indices.
The JavaScript engine sort is modelled by a merge sort. -/
def rankItems (items : List MenuItem) : List ℕ :=
  ((items.enum.map fun x => (x.1, scoreItem x.2)).mergeSort
    fun a b => decide (b.2 - a.2 ≤ 0)).map fun x => x.1

/-- rankItems of the source applied to the loosely-typed items handled
inside validateMenuData. -/
def rankItemsR (items : List RawItem) : List ℕ :=
  ((items.enum.map fun x => (x.1, scoreItemR x.2)).mergeSort
    fun a b => jle (jsub b.2 a.2) (.num 0)).map fun x => x.1

/-- JavaScript indexing items[i] for a possibly out-of-range or negative
index: `none` is undefined. -/
def jsGet (items : List MenuItem) (i : ℤ) : Option MenuItem :=
  if 0 ≤ i then items.get? i.toNat else none

/-- sumPrice of the source: fold over the indices, each step adding
items[i]?.price || 0. -/
def sumPrice (items : List MenuItem) (indices : List ℤ) : ℚ :=
  indices.foldl (fun sum i => sum + ((jsGet items i).bind (fun x => x.price)).getD 0) 0

/-- sumMacros of the source: fold over the indices accumulating the four
macro fields, each read as items[i]?.field || 0. -/
def sumMacros (items : List MenuItem) (indices : List ℤ) : MacroSummary :=
  indices.foldl
    (fun acc i =>
      { calories := acc.calories + ((jsGet items i).bind (fun x => x.calories)).getD 0
        protein_g := acc.protein_g + ((jsGet items i).bind (fun x => x.protein_g)).getD 0
        carbs_g := acc.carbs_g + ((jsGet items i).bind (fun x => x.carbs_g)).getD 0
        fat_g := acc.fat_g + ((jsGet items i).bind (fun x => x.fat_g)).getD 0 })
    zeroMacros

/-- Step 1 of validateMenuData: the item map that fills every field via
logical-or with its default. -/
def coerceItem (item : RawItem) : RawItem :=
  { name := jor item.name (.str "Unknown Item")
    description := jor item.description (.str "")
    price := jor item.price (.num 0)
    calories := jor item.calories (.num 0)
    protein_g := jor item.protein_g (.num 0)
    carbs_g := jor item.carbs_g (.num 0)
    fat_g := jor item.fat_g (.num 0) }

/-- The expected calorie value protein*4 + carbs*4 + fat*9 computed inside
validateMenuData. -/
def calcCalories (protein carbs fat : JVal) : JVal :=
  jadd (jadd (jmul protein (.num 4)) (jmul carbs (.num 4))) (jmul fat (.num 9))

/-- The expected-calories expression of step 2 applied to an item, after the
or-0 reads of its macro fields. -/
def calcCaloriesOf (item : RawItem) : JVal :=
  calcCalories (jor item.protein_g (.num 0)) (jor item.carbs_g (.num 0))
    (jor item.fat_g (.num 0))

/-- The overwrite condition of step 2: the stated calories are positive and
differ from the expected value by more than 100. -/
def fixCond (item : RawItem) : Bool :=
  jgt (jor item.calories (.num 0)) (.num 0) &&
    jgt (jabs (jsub (calcCaloriesOf item) (jor item.calories (.num 0)))) (.num 100)

/-- Step 2 of validateMenuData: the per-item calorie cross-check.  When the
stated calories are positive and differ from the macro-derived value by more
than 100, they are overwritten with the rounded macro-derived value. -/
def fixCalories (item : RawItem) : RawItem :=
  if fixCond item then { item with calories := jround (calcCaloriesOf item) } else item

/-- The in-range test used on health_rank entries in step 4 of
validateMenuData; entries are JavaScript numbers, so a fractional entry such
as one half passes for any non-empty item range. -/
def idxInRange (n : ℕ) (idx : ℚ) : Bool :=
  decide (0 ≤ idx) && decide (idx < (n : ℚ))

/-- The same in-range test on the integer indices handled by the
aggregation engine: an index contributes to a sum exactly when it lies in
[0, items.length). -/
def idxInRangeZ (n : ℕ) (idx : ℤ) : Bool :=
  decide (0 ≤ idx) && decide (idx < (n : ℤ))

/-- Steps 1 and 2 of validateMenuData: the coercing item map followed by the
calorie cross-check over the fresh items. -/
def repairItems (rawItems : List RawItem) : List RawItem :=
  (rawItems.map coerceItem).map fixCalories

/-- Steps 3 to 5 of validateMenuData on the repaired items: regenerate a
missing, non-array or empty health_rank through the ranking engine, drop
out-of-range entries, and regenerate once more when the filtered length no
longer matches the item count. -/
def repairRank (items : List RawItem) (rawRank : Option (List ℚ)) : List ℚ :=
  let hr0 : List ℚ :=
    match rawRank with
    | none => (rankItemsR items).map (Nat.cast : ℕ → ℚ)
    | some l => if l.length = 0 then (rankItemsR items).map (Nat.cast : ℕ → ℚ) else l
  let hr1 := hr0.filter (idxInRange items.length)
  if hr1.length ≠ items.length then (rankItemsR items).map (Nat.cast : ℕ → ℚ) else hr1

/-- validateMenuData of the source.  Accessing `.map` on a missing or
non-sequence `items` field raises a TypeError in JavaScript, and so does the
property access inside the map callback on a null or undefined array entry;
both are modelled by the error branches.  Every other input is repaired
without an error.  The steps mirror the source: coerce every item,
cross-check calories, regenerate a missing or empty health_rank, filter
out-of-range ranks, and regenerate the rank when the filtered length no
longer matches the item count. -/
def validateMenuData (parsed : RawAnalysis) : Except String Analysis :=
  match parsed.items with
  | none => .error "TypeError: cannot read properties of undefined"
  | some rawItems =>
    match allSome rawItems with
    | none => .error "TypeError: cannot read properties of null"
    | some objs =>
      let items := repairItems objs
      .ok { items := items, health_rank := repairRank items parsed.health_rank,
            combos := parsed.combos, notes := parsed.notes }

/-- A health_rank that is a full permutation of the item indices. -/
def permOfRange (l : List ℚ) (n : ℕ) : Prop :=
  List.Perm l ((List.range n).map (Nat.cast : ℕ → ℚ))

instance (l : List ℚ) (n : ℕ) : Decidable (permOfRange l n) := by
  unfold permOfRange; infer_instance

/- Store-passing model of validateMenuData, used to track which item objects
the function reads and which it writes.  The store is the collection of menu
item objects in memory, an address being an index into it; the raw analysis
refers to its items by address, as the JavaScript object does by
reference. -/

/-- The raw analysis shape with items given by reference into a store. -/
structure RawAnalysisS where
  items : Option (List ℕ) := none
  health_rank : Option (List ℚ) := none
  combos : List Combo := []
  notes : String := ""
deriving DecidableEq

/-- The validated analysis with items given by reference into a store. -/
structure AnalysisS where
  items : List ℕ
  health_rank : List ℚ
  combos : List Combo
  notes : String
deriving DecidableEq

/-- The all-undefined item, used as the read default for the store. -/
def emptyRawItem : RawItem := {}

/-- Store-passing validateMenuData: reading the raw items from the store,
`.map` allocates fresh item objects (appended to the store), the calorie
cross-check of step 2 mutates exactly those fresh objects in place (the
forEach of the source), and the result analysis holds the fresh addresses.
The input item objects are only read. -/
def validateMenuDataS (store : List RawItem) (parsed : RawAnalysisS) :
    Except String (List RawItem × AnalysisS) :=
  match parsed.items with
  | none => .error "TypeError: cannot read properties of undefined"
  | some addrs =>
    let newItems := (addrs.map fun a => store.getD a emptyRawItem).map coerceItem
    let store1 := store ++ newItems
    let newAddrs := (List.range newItems.length).map fun i => store.length + i
    let store2 := newAddrs.foldl
      (fun s a => s.set a (fixCalories (s.getD a emptyRawItem))) store1
    let items := newAddrs.map fun a => store2.getD a emptyRawItem
    .ok (store2,
      { items := newAddrs, health_rank := repairRank items parsed.health_rank,
        combos := parsed.combos, notes := parsed.notes })

/- Keyword categorization of the dietary summarizer (generateDietaryInfo). -/

/-- Seafood trigger keywords of generateDietaryInfo. -/
def seafoodKws : List String :=
  ["salmon", "fish", "shrimp", "tuna", "cod", "seafood", "mackerel", "sardine", "trout"]

/-- Meat trigger keywords of generateDietaryInfo. -/
def meatKws : List String :=
  ["chicken", "beef", "pork", "lamb", "turkey", "meat", "steak", "burger", "sausage"]

/-- Vegetable trigger keywords of generateDietaryInfo. -/
def vegetableKws : List String :=
  ["salad", "vegetable", "broccoli", "spinach", "carrot", "tomato", "kale", "lettuce", "cucumber"]

/-- Grain trigger keywords of generateDietaryInfo. -/
def grainKws : List String :=
  ["rice", "pasta", "bread", "quinoa", "oat", "noodle"]

/-- Dairy trigger keywords of generateDietaryInfo. -/
def dairyKws : List String :=
  ["cheese", "milk", "yogurt", "cream", "butter", "dairy"]

/-- Fruit trigger keywords of generateDietaryInfo. -/
def fruitKws : List String :=
  ["apple", "banana", "berry", "orange", "fruit", "grape"]

/-- Dessert trigger keywords of generateDietaryInfo. -/
def dessertKws : List String :=
  ["cake", "cookie", "ice cream", "dessert", "sweet", "chocolate"]

/-- Substring test on character lists, modelling String.prototype.includes. -/
def charsInfixOf (sub : List Char) : List Char → Bool
  | [] => sub.isEmpty
  | c :: rest => sub.isPrefixOf (c :: rest) || charsInfixOf sub rest

/-- The combined lower-cased name-plus-description text scanned per item. -/
def combinedText (it : MenuItem) : List Char :=
  it.name.data.map Char.toLower ++ [' '] ++ (it.description.getD "").data.map Char.toLower

/-- Membership of any keyword of a category in the combined text. -/
def hasAnyKw (text : List Char) (kws : List String) : Bool :=
  kws.any fun k => charsInfixOf k.data text

/-- The category counters accumulated by generateDietaryInfo. -/
structure Categories where
  seafood : ℕ := 0
  meat : ℕ := 0
  vegetarian : ℕ := 0
  vegan : ℕ := 0
  dairy : ℕ := 0
  grains : ℕ := 0
  vegetables : ℕ := 0
  fruits : ℕ := 0
  desserts : ℕ := 0
  healthy : ℕ := 0
  highCalorie : ℕ := 0
  highProtein : ℕ := 0
  lowCalorie : ℕ := 0
deriving DecidableEq

/-- The else-if chain of generateDietaryInfo over the seven base food
categories: only the first category whose keywords match is incremented. -/
def baseCategoryStep (c : Categories) (text : List Char) : Categories :=
  if hasAnyKw text seafoodKws then { c with seafood := c.seafood + 1 }
  else if hasAnyKw text meatKws then { c with meat := c.meat + 1 }
  else if hasAnyKw text vegetableKws then { c with vegetables := c.vegetables + 1 }
  else if hasAnyKw text grainKws then { c with grains := c.grains + 1 }
  else if hasAnyKw text dairyKws then { c with dairy := c.dairy + 1 }
  else if hasAnyKw text fruitKws then { c with fruits := c.fruits + 1 }
  else if hasAnyKw text dessertKws then { c with desserts := c.desserts + 1 }
  else c

/-- The vegetarian/vegan counting of generateDietaryInfo: vegetarian when no
meat and no seafood keyword matches, vegan when additionally no dairy
keyword matches. -/
def vegCategoryStep (c : Categories) (text : List Char) : Categories :=
  if !hasAnyKw text meatKws && !hasAnyKw text seafoodKws then
    let c1 := { c with vegetarian := c.vegetarian + 1 }
    if !hasAnyKw text dairyKws then { c1 with vegan := c1.vegan + 1 } else c1
  else c

/-- The nutrition threshold counting of generateDietaryInfo. -/
def healthCategoryStep (c : Categories) (calories protein fat : ℚ) : Categories :=
  let c1 := if calories ≤ 300 ∧ protein ≥ 15 ∧ fat ≤ 15 then
    { c with healthy := c.healthy + 1 } else c
  let c2 := if calories ≥ 600 then { c1 with highCalorie := c1.highCalorie + 1 } else c1
  let c3 := if protein ≥ 25 then { c2 with highProtein := c2.highProtein + 1 } else c2
  if calories ≤ 200 then { c3 with lowCalorie := c3.lowCalorie + 1 } else c3

/-- The per-item body of the forEach in generateDietaryInfo, restricted to
the category counters. -/
def categorizeItem (c : Categories) (item : MenuItem) : Categories :=
  let text := combinedText item
  let calories := item.calories.getD 0
  let protein := item.protein_g.getD 0
  let fat := item.fat_g.getD 0
  healthCategoryStep (vegCategoryStep (baseCategoryStep c text) text) calories protein fat

/-- The category counters generateDietaryInfo accumulates over the menu. -/
def generateDietaryInfoCategories (items : List MenuItem) : Categories :=
  items.foldl categorizeItem {}

/-- Sum of the seven mutually exclusive base category counters. -/
def baseTotal (c : Categories) : ℕ :=
  c.seafood + c.meat + c.vegetables + c.grains + c.dairy + c.fruits + c.desserts

/-- The three menu items of the development tests in the source, used as the
concrete item sequence of the aggregation scenarios. -/
def devItems : List MenuItem :=
  [{ name := "Grilled Chicken", calories := some 450, protein_g := some 45,
     carbs_g := some 10, fat_g := some 12, price := some 12 },
   { name := "Cheesecake", calories := some 650, protein_g := some 6,
     carbs_g := some 60, fat_g := some 40, price := some 6 },
   { name := "Salmon Salad", calories := some 420, protein_g := some 35,
     carbs_g := some 12, fat_g := some 18, price := some 13 }]

end Menubot

namespace Menubot

/- Concrete inputs used in the scenario checks, counterexamples and
witnesses below. -/

/-- The raw item of scenario D of the specification: stated calories 900
with macros 10 g protein, 10 g carbs, 5 g fat. -/
def itemD : RawItem :=
  { calories := .num 900, protein_g := .num 10, carbs_g := .num 10, fat_g := .num 5 }

/-- The repaired form of the scenario D item: calories corrected to 125. -/
def itemDF : RawItem :=
  { name := .str "Unknown Item", description := .str "", price := .num 0,
    calories := .num 125, protein_g := .num 10, carbs_g := .num 10, fat_g := .num 5 }

/-- The raw analysis of scenario D of the specification. -/
def scenarioD : RawAnalysis := { items := some [some itemD], health_rank := some [5] }

/-- The validated analysis produced from scenario D. -/
def scenarioDOut : Analysis :=
  { items := [itemDF], health_rank := [0], combos := [], notes := "" }

/-- The repaired form of the all-absent item. -/
def emptyItemF : RawItem :=
  { name := .str "Unknown Item", description := .str "", price := .num 0,
    calories := .num 0, protein_g := .num 0, carbs_g := .num 0, fat_g := .num 0 }

/-- A raw analysis whose health_rank holds a duplicated in-range index while
already having as many entries as there are items. -/
def dupRankRaw : RawAnalysis :=
  { items := some [some {}, some {}], health_rank := some [0, 0] }

/-- A raw analysis whose health_rank holds a duplicated in-range index next
to an out-of-range one: filtering drops the 5 and leaves [0, 0], which has
exactly as many entries as there are items. -/
def dupOutRankRaw : RawAnalysis :=
  { items := some [some {}, some {}], health_rank := some [0, 0, 5] }

/-- A raw analysis whose health_rank holds a fractional entry: one half is
in range for two items and survives the filter. -/
def fracRankRaw : RawAnalysis :=
  { items := some [some {}, some {}], health_rank := some [1 / 2, 1] }

/-- A raw analysis whose items array holds a null entry. -/
def nullItemRaw : RawAnalysis := { items := some [none] }

/-- A raw analysis whose single item carries a truthy non-numeric price. -/
def strPriceRaw : RawAnalysis := { items := some [some { price := .str "abc" }] }

/-- The repaired form of the non-numeric-price item: the string price is
kept verbatim by the logical-or coercion. -/
def strPriceItemF : RawItem :=
  { name := .str "Unknown Item", description := .str "", price := .str "abc",
    calories := .num 0, protein_g := .num 0, carbs_g := .num 0, fat_g := .num 0 }

/-- A raw analysis whose items field is missing. -/
def noItemsRaw : RawAnalysis := { items := none }

/-- A raw analysis with one absent item and an out-of-range health_rank. -/
def oneItemRaw : RawAnalysis := { items := some [some {}], health_rank := some [5] }

/-- The validated analysis produced from oneItemRaw. -/
def oneItemOut : Analysis :=
  { items := [emptyItemF], health_rank := [0], combos := [], notes := "" }

/-- A menu item whose name holds both a seafood keyword and a vegetables
keyword. -/
def salmonSalad : MenuItem := { name := "Salmon Salad" }

/-- Raw health ranks the validator is guaranteed to turn into a full
permutation: a missing or empty rank and a filtered-length mismatch force
regeneration, and a duplicate-free filtered rank of full length whose
entries are all integers is itself a permutation.  The raw shapes not
covered are ranks whose in-range entries number exactly the item count
while containing duplicates or fractional values: the source keeps those
as-is even though they are not permutations. -/
def rankRepairable (n : ℕ) (rawRank : Option (List ℚ)) : Prop :=
  match rawRank with
  | none => True
  | some l => (l.filter (idxInRange n)).length ≠ n ∨
      ((l.filter (idxInRange n)).Nodup ∧ ∀ q ∈ l.filter (idxInRange n), q.den = 1)

/-- A raw analysis with an empty item sequence. -/
def emptyOkRaw : RawAnalysis := { items := some [] }

/-- A one-object store for the store-passing validator. -/
def storeW : List RawItem := [itemD]

/-- A raw analysis referring to the single store object by address 0. -/
def parsedW : RawAnalysisS := { items := some [0] }

/-- The store after running the store-passing validator on storeW and
parsedW: the input object is untouched and the repaired copy is appended. -/
def storeW2 : List RawItem := [itemD, itemDF]

/-- The analysis returned by the store-passing validator on storeW and
parsedW: it points at the freshly allocated item, not at the input one. -/
def outW : AnalysisS :=
  { items := [1], health_rank := [0], combos := [], notes := "" }

end Menubot

namespace Menubot

/- Basic facts about the JavaScript coercions. -/

theorem jor_jor (x d : JVal) : jor (jor x d) d = jor x d := by
  unfold jor
  by_cases hx : x.truthy <;> by_cases hd : d.truthy <;> simp [hx, hd]

theorem jor_num_zero (q : ℚ) : jor (.num q) (.num 0) = .num q := by
  unfold jor JVal.truthy
  by_cases hq : q = 0 <;> simp [hq]

theorem jor_truthy_of_truthy (x d : JVal) (hd : d.truthy = true) :
    (jor x d).truthy = true := by
  unfold jor
  by_cases hx : x.truthy <;> simp [hx, hd]

theorem truthy_not_nullOrUndef (x : JVal) (h : x.truthy = true) :
    x.isNullOrUndef = false := by
  cases x <;> simp_all [JVal.truthy, JVal.isNullOrUndef]

theorem jor_not_nullOrUndef (x d : JVal) (hd : d.isNullOrUndef = false) :
    (jor x d).isNullOrUndef = false := by
  unfold jor
  by_cases hx : x.truthy
  · simp [hx, truthy_not_nullOrUndef x hx]
  · simp [hx, hd]

theorem jor_of_falsy (x d : JVal) (hx : x.truthy = false) : jor x d = d := by
  simp [jor, hx]

theorem jor_of_truthy (x d : JVal) (hx : x.truthy = true) : jor x d = x := by
  simp [jor, hx]

theorem jgt_num (a b : ℚ) : jgt (.num a) (.num b) = decide (b < a) := rfl

theorem jsub_num_of (a : JVal) (x b : ℚ) (h : a.toNumber = some x) :
    jsub a (.num b) = .num (x - b) := by
  unfold jsub
  rw [h]
  rfl

theorem jabs_num (x : ℚ) : jabs (.num x) = .num |x| := rfl

theorem jround_of (a : JVal) (x : ℚ) (h : a.toNumber = some x) :
    jround a = .num ((round x : ℤ) : ℚ) := by
  simp [jround, h]

/- Facts about the item coercion and the calorie cross-check. -/

theorem coerceItem_idem (r : RawItem) : coerceItem (coerceItem r) = coerceItem r := by
  simp [coerceItem, jor_jor]

theorem fixCalories_keeps (i : RawItem) :
    (fixCalories i).name = i.name ∧ (fixCalories i).description = i.description ∧
    (fixCalories i).price = i.price ∧ (fixCalories i).protein_g = i.protein_g ∧
    (fixCalories i).carbs_g = i.carbs_g ∧ (fixCalories i).fat_g = i.fat_g := by
  unfold fixCalories
  split <;> simp

theorem fixCond_true_calc (i : RawItem) (h : fixCond i = true) :
    ∃ x : ℚ, (calcCaloriesOf i).toNumber = some x := by
  unfold fixCond at h
  rw [Bool.and_eq_true] at h
  obtain ⟨-, h2⟩ := h
  cases hC : (calcCaloriesOf i).toNumber with
  | some x => exact ⟨x, rfl⟩
  | none =>
    exfalso
    have hsub : jsub (calcCaloriesOf i) (jor i.calories (.num 0)) = .nan := by
      simp [jsub, hC]
    rw [hsub] at h2
    simp [jabs, jgt, JVal.toNumber] at h2

theorem fixCalories_eq (i : RawItem) :
    fixCalories i = i ∨
    ∃ x : ℚ, (calcCaloriesOf i).toNumber = some x ∧
      fixCalories i = { i with calories := .num ((round x : ℤ) : ℚ) } := by
  unfold fixCalories
  by_cases h : fixCond i = true
  · obtain ⟨x, hx⟩ := fixCond_true_calc i h
    right
    exact ⟨x, hx, by simp [h, jround_of _ _ hx]⟩
  · left
    simp [h]

theorem fixCalories_of_cond_false (i : RawItem) (h : fixCond i = false) :
    fixCalories i = i := by
  simp [fixCalories, h]

theorem fixCalories_fixCalories (i : RawItem) : fixCalories (fixCalories i) = fixCalories i := by
  rcases fixCalories_eq i with h | ⟨x, hC, h⟩
  · rw [h, h]
  · rw [h]
    set j : RawItem := { i with calories := .num ((round x : ℤ) : ℚ) } with hj
    have hCj : calcCaloriesOf j = calcCaloriesOf i := by
      simp [calcCaloriesOf, hj]
    have hcond : fixCond j = false := by
      unfold fixCond
      rw [hCj]
      have hcal : jor j.calories (.num 0) = .num ((round x : ℤ) : ℚ) := by
        rw [hj]; exact jor_num_zero _
      rw [hcal, jsub_num_of _ x _ hC, jabs_num]
      have hb : |x - ((round x : ℤ) : ℚ)| ≤ 1 / 2 := abs_sub_round x
      have hnot : ¬ (100 : ℚ) < |x - ((round x : ℤ) : ℚ)| := by
        intro hlt
        linarith
      simp [jgt_num, hnot]
    exact fixCalories_of_cond_false j hcond

theorem coerce_fix_coerce (r : RawItem) :
    coerceItem (fixCalories (coerceItem r)) = fixCalories (coerceItem r) := by
  rcases fixCalories_eq (coerceItem r) with h | ⟨x, -, h⟩
  · rw [h]; exact coerceItem_idem r
  · rw [h]
    have hc := coerceItem_idem r
    simp only [coerceItem] at hc ⊢
    simp only [RawItem.mk.injEq] at hc ⊢
    obtain ⟨h1, h2, h3, h4, h5, h6, h7⟩ := hc
    exact ⟨h1, h2, h3, jor_num_zero _, h5, h6, h7⟩

theorem repairItems_idem (l : List RawItem) : repairItems (repairItems l) = repairItems l := by
  unfold repairItems
  simp only [List.map_map]
  apply List.map_congr_left
  intro r _
  simp only [Function.comp]
  rw [coerce_fix_coerce r, fixCalories_fixCalories (coerceItem r)]

end Menubot

namespace Menubot

/- The ranking engine always returns a permutation of the index range. -/

theorem intOfNat_cast (n : ℕ) : Int.ofNat n = (n : ℤ) := rfl

theorem rankItems_perm (items : List MenuItem) :
    List.Perm (rankItems items) (List.range items.length) := by
  unfold rankItems
  have h : List.Perm
      (((items.enum.map fun x => (x.1, scoreItem x.2)).mergeSort
        fun a b => decide (b.2 - a.2 ≤ 0)).map fun x => x.1)
      ((items.enum.map fun x => (x.1, scoreItem x.2)).map fun x => x.1) :=
    (List.mergeSort_perm _ _).map _
  have he : ((items.enum.map fun x => (x.1, scoreItem x.2)).map fun x => x.1)
      = List.range items.length := by
    rw [List.map_map]
    have hc : ((fun x => x.1) ∘ fun x : ℕ × MenuItem => (x.1, scoreItem x.2)) = Prod.fst := rfl
    rw [hc, List.enum_map_fst]
  rw [he] at h
  exact h

theorem rankItemsR_perm (items : List RawItem) :
    List.Perm (rankItemsR items) (List.range items.length) := by
  unfold rankItemsR
  have h : List.Perm
      (((items.enum.map fun x => (x.1, scoreItemR x.2)).mergeSort
        fun a b => jle (jsub b.2 a.2) (.num 0)).map fun x => x.1)
      ((items.enum.map fun x => (x.1, scoreItemR x.2)).map fun x => x.1) :=
    (List.mergeSort_perm _ _).map _
  have he : ((items.enum.map fun x => (x.1, scoreItemR x.2)).map fun x => x.1)
      = List.range items.length := by
    rw [List.map_map]
    have hc : ((fun x => x.1) ∘ fun x : ℕ × RawItem => (x.1, scoreItemR x.2)) = Prod.fst := rfl
    rw [hc, List.enum_map_fst]
  rw [he] at h
  exact h

theorem rankItemsR_length (items : List RawItem) :
    (rankItemsR items).length = items.length := by
  have := (rankItemsR_perm items).length_eq
  simpa using this

theorem mem_rankItemsR (items : List RawItem) (j : ℕ) :
    j ∈ rankItemsR items ↔ j < items.length := by
  rw [(rankItemsR_perm items).mem_iff, List.mem_range]

/- The regenerated rank list (index casts) is a permutation of the index
range. -/

theorem regen_perm (items : List RawItem) :
    permOfRange ((rankItemsR items).map (Nat.cast : ℕ → ℚ)) items.length := by
  unfold permOfRange
  exact (rankItemsR_perm items).map _

theorem regen_mem (items : List RawItem) (i : ℚ)
    (h : i ∈ (rankItemsR items).map (Nat.cast : ℕ → ℚ)) :
    idxInRange items.length i = true := by
  rw [List.mem_map] at h
  obtain ⟨j, hj, rfl⟩ := h
  rw [mem_rankItemsR] at hj
  simp only [idxInRange, Bool.and_eq_true, decide_eq_true_eq]
  exact ⟨Nat.cast_nonneg j, Nat.cast_lt.2 hj⟩

theorem regen_filter (items : List RawItem) :
    ((rankItemsR items).map (Nat.cast : ℕ → ℚ)).filter (idxInRange items.length)
      = (rankItemsR items).map (Nat.cast : ℕ → ℚ) :=
  List.filter_eq_self.2 (fun i hi => regen_mem items i hi)

theorem regen_length (items : List RawItem) :
    ((rankItemsR items).map (Nat.cast : ℕ → ℚ)).length = items.length := by
  simp [rankItemsR_length]

/- A duplicate-free list of n in-range integral rationals is a permutation
of the index range: the pigeonhole step behind the repaired rank. -/

theorem cast_num_toNat (a : ℚ) (hd : a.den = 1) (h0 : 0 ≤ a) :
    ((a.num.toNat : ℕ) : ℚ) = a := by
  have hnum : ((a.num : ℤ) : ℚ) = a := Rat.coe_int_num_of_den_eq_one hd
  have hnn : 0 ≤ a.num := Rat.num_nonneg.2 h0
  have h1 : ((a.num.toNat : ℕ) : ℤ) = a.num := Int.toNat_of_nonneg hnn
  calc ((a.num.toNat : ℕ) : ℚ) = (((a.num.toNat : ℕ) : ℤ) : ℚ) := (Int.cast_natCast _).symm
    _ = ((a.num : ℤ) : ℚ) := by rw [h1]
    _ = a := hnum

theorem perm_range_of_nodup (l : List ℚ) (n : ℕ) (hn : l.Nodup)
    (hlen : l.length = n) (hmem : ∀ q ∈ l, idxInRange n q = true)
    (hint : ∀ q ∈ l, q.den = 1) :
    permOfRange l n := by
  unfold permOfRange
  have hinj : Function.Injective (Nat.cast : ℕ → ℚ) := Nat.cast_injective
  have hRnodup : ((List.range n).map (Nat.cast : ℕ → ℚ)).Nodup :=
    (List.nodup_range n).map hinj
  rw [List.perm_ext_iff_of_nodup hn hRnodup]
  intro a
  constructor
  · intro ha
    have hr := hmem a ha
    have hd := hint a ha
    simp only [idxInRange, Bool.and_eq_true, decide_eq_true_eq] at hr
    have hcast : ((a.num.toNat : ℕ) : ℚ) = a := cast_num_toNat a hd hr.1
    rw [List.mem_map]
    refine ⟨a.num.toNat, List.mem_range.2 ?_, hcast⟩
    have hlt : ((a.num.toNat : ℕ) : ℚ) < (n : ℚ) := by rw [hcast]; exact hr.2
    exact_mod_cast hlt
  · intro ha
    by_contra hna
    have hsub : l.toFinset ⊆ ((Finset.range n).image (Nat.cast : ℕ → ℚ)).erase a := by
      intro x hx
      rw [List.mem_toFinset] at hx
      rw [Finset.mem_erase]
      refine ⟨?_, ?_⟩
      · rintro rfl; exact hna hx
      · have hr := hmem x hx
        have hd := hint x hx
        simp only [idxInRange, Bool.and_eq_true, decide_eq_true_eq] at hr
        have hcast : ((x.num.toNat : ℕ) : ℚ) = x := cast_num_toNat x hd hr.1
        rw [Finset.mem_image]
        refine ⟨x.num.toNat, Finset.mem_range.2 ?_, hcast⟩
        have hlt : ((x.num.toNat : ℕ) : ℚ) < (n : ℚ) := by rw [hcast]; exact hr.2
        exact_mod_cast hlt
    have hcard1 : l.toFinset.card = n := by
      rw [List.toFinset_card_of_nodup hn, hlen]
    have hcard2 : (((Finset.range n).image (Nat.cast : ℕ → ℚ)).erase a).card = n - 1 := by
      have haimg : a ∈ (Finset.range n).image (Nat.cast : ℕ → ℚ) := by
        rw [List.mem_map] at ha
        obtain ⟨j, hj, rfl⟩ := ha
        rw [List.mem_range] at hj
        rw [Finset.mem_image]
        exact ⟨j, Finset.mem_range.2 hj, rfl⟩
      rw [Finset.card_erase_of_mem haimg, Finset.card_image_of_injective _ hinj,
        Finset.card_range]
    have hle := Finset.card_le_card hsub
    rw [hcard1, hcard2] at hle
    have hn0 : 0 < n := by
      rw [List.mem_map] at ha
      obtain ⟨j, hj, rfl⟩ := ha
      rw [List.mem_range] at hj
      omega
    omega

end Menubot

namespace Menubot

/- Structure of the repaired health rank. -/

theorem repairRank_cases (items : List RawItem) (rawRank : Option (List ℚ)) :
    repairRank items rawRank = (rankItemsR items).map (Nat.cast : ℕ → ℚ) ∨
    ∃ l, rawRank = some l ∧ l.length ≠ 0 ∧
      repairRank items rawRank = l.filter (idxInRange items.length) ∧
      (l.filter (idxInRange items.length)).length = items.length := by
  unfold repairRank
  cases rawRank with
  | none =>
    left
    simp only
    rw [regen_filter, regen_length]
    simp
  | some l =>
    by_cases hl : l.length = 0
    · left
      simp only
      rw [if_pos hl, regen_filter, regen_length]
      simp
    · by_cases hf : (l.filter (idxInRange items.length)).length = items.length
      · right
        refine ⟨l, rfl, hl, ?_, hf⟩
        simp only
        rw [if_neg hl, if_neg (by rw [hf]; simp)]
      · left
        simp only
        rw [if_neg hl, if_pos hf]

theorem repairRank_length (items : List RawItem) (rawRank : Option (List ℚ)) :
    (repairRank items rawRank).length = items.length := by
  rcases repairRank_cases items rawRank with h | ⟨l, -, -, h, hlen⟩
  · rw [h, regen_length]
  · rw [h, hlen]

theorem repairRank_mem (items : List RawItem) (rawRank : Option (List ℚ)) :
    ∀ i ∈ repairRank items rawRank, idxInRange items.length i = true := by
  intro i hi
  rcases repairRank_cases items rawRank with h | ⟨l, -, -, h, -⟩
  · rw [h] at hi
    exact regen_mem items i hi
  · rw [h] at hi
    exact List.of_mem_filter hi

/-- When the raw rank is already an in-range list of exactly the item count,
the validator keeps it unchanged. -/
theorem repairRank_self (items : List RawItem) (l : List ℚ)
    (hmem : ∀ i ∈ l, idxInRange items.length i = true)
    (hlen : l.length = items.length) :
    repairRank items (some l) = l := by
  unfold repairRank
  by_cases hl : l.length = 0
  · have hnil : l = [] := List.length_eq_zero.1 hl
    have hitems : items.length = 0 := by omega
    subst hnil
    have hrank : rankItemsR items = [] := by
      have := rankItemsR_length items
      rw [hitems] at this
      exact List.length_eq_zero.1 this
    simp only
    rw [if_pos hl, hrank]
    simp
  · have hfilter : l.filter (idxInRange items.length) = l := List.filter_eq_self.2 hmem
    simp only
    rw [if_neg hl, hfilter, if_neg (by rw [hlen]; simp)]

/- Inversion of a successful validation. -/

theorem validateMenuData_ok_inv (parsed : RawAnalysis) (v : Analysis)
    (hok : validateMenuData parsed = .ok v) :
    ∃ rawItems objs, parsed.items = some rawItems ∧ allSome rawItems = some objs ∧
      v = { items := repairItems objs
            health_rank := repairRank (repairItems objs) parsed.health_rank
            combos := parsed.combos
            notes := parsed.notes } := by
  cases hp : parsed.items with
  | none => rw [validateMenuData, hp] at hok; exact absurd hok (by simp)
  | some rawItems =>
    rw [validateMenuData, hp] at hok
    dsimp only at hok
    cases ha : allSome rawItems with
    | none => rw [ha] at hok; exact absurd hok (by simp)
    | some objs =>
      rw [ha] at hok
      simp only [Except.ok.injEq] at hok
      exact ⟨rawItems, objs, rfl, ha, hok.symm⟩

theorem validateMenuData_ok_of_objs (parsed : RawAnalysis) (rawItems : List (Option RawItem))
    (objs : List RawItem) (hp : parsed.items = some rawItems)
    (ha : allSome rawItems = some objs) :
    validateMenuData parsed = .ok
      { items := repairItems objs
        health_rank := repairRank (repairItems objs) parsed.health_rank
        combos := parsed.combos
        notes := parsed.notes } := by
  rw [validateMenuData, hp]
  dsimp only
  rw [ha]

theorem allSome_map_some (l : List RawItem) : allSome (l.map some) = some l := by
  induction l with
  | nil => rfl
  | cons x rest ih => simp [allSome, ih]

theorem allSome_of_all_isSome (l : List (Option RawItem))
    (h : l.all Option.isSome = true) : ∃ objs, allSome l = some objs := by
  induction l with
  | nil => exact ⟨[], rfl⟩
  | cons x rest ih =>
    simp only [List.all_cons, Bool.and_eq_true] at h
    obtain ⟨objs, hobjs⟩ := ih h.2
    cases x with
    | none => simp [Option.isSome] at h
    | some y => exact ⟨y :: objs, by simp [allSome, hobjs]⟩

end Menubot

namespace Menubot

/- Folds ignore elements on which the step acts trivially: the out-of-range
policy of the aggregation engine. -/

theorem foldl_filter_of_invariant {α β : Type _} (f : β → α → β) (p : α → Bool)
    (hf : ∀ b a, p a = false → f b a = b) :
    ∀ (l : List α) (init : β), (l.filter p).foldl f init = l.foldl f init := by
  intro l
  induction l with
  | nil => intro init; rfl
  | cons a l ih =>
    intro init
    by_cases hp : p a = true
    · rw [List.filter_cons_of_pos hp, List.foldl_cons, List.foldl_cons, ih]
    · have hp2 : p a = false := by simpa using hp
      rw [List.filter_cons_of_neg (by simp [hp2]), List.foldl_cons, hf init a hp2, ih]

theorem jsGet_eq_none_of_not_inRange (items : List MenuItem) (i : ℤ)
    (h : idxInRangeZ items.length i = false) : jsGet items i = none := by
  unfold jsGet
  unfold idxInRangeZ at h
  rw [Bool.and_eq_false_iff] at h
  rcases h with h | h
  · simp at h
    simp [not_le.2 h]
  · simp at h
    have hle : 0 ≤ i := by omega
    rw [if_pos hle]
    apply List.get?_eq_none.2
    omega

/- The store-passing validator only writes to freshly allocated cells. -/

theorem foldl_set_getD_low (f : List RawItem → ℕ → RawItem) (n : ℕ) :
    ∀ (l : List ℕ) (s : List RawItem), (∀ x ∈ l, n ≤ x) → ∀ a, a < n →
      (l.foldl (fun s x => s.set x (f s x)) s).getD a emptyRawItem = s.getD a emptyRawItem := by
  intro l
  induction l with
  | nil => intro s _ a _; rfl
  | cons x l ih =>
    intro s hl a ha
    rw [List.foldl_cons]
    rw [ih _ (fun y hy => hl y (List.mem_cons_of_mem x hy)) a ha]
    have hx : n ≤ x := hl x (List.mem_cons_self x l)
    have hne : x ≠ a := by omega
    simp [List.getD_eq_getElem?_getD, List.getElem?_set_ne hne]

theorem getD_append_low (s t : List RawItem) (a : ℕ) (h : a < s.length) :
    (s ++ t).getD a emptyRawItem = s.getD a emptyRawItem := by
  simp [List.getD_eq_getElem?_getD, List.getElem?_append_left h]

/- The base category chain of the summarizer touches exactly one counter,
and the later steps leave the seven base counters alone. -/

theorem vegCategoryStep_base (c : Categories) (text : List Char) :
    (vegCategoryStep c text).seafood = c.seafood ∧
    (vegCategoryStep c text).meat = c.meat ∧
    (vegCategoryStep c text).vegetables = c.vegetables ∧
    (vegCategoryStep c text).grains = c.grains ∧
    (vegCategoryStep c text).dairy = c.dairy ∧
    (vegCategoryStep c text).fruits = c.fruits ∧
    (vegCategoryStep c text).desserts = c.desserts := by
  unfold vegCategoryStep
  split
  · split <;> simp
  · simp

theorem healthCategoryStep_base (c : Categories) (calories protein fat : ℚ) :
    (healthCategoryStep c calories protein fat).seafood = c.seafood ∧
    (healthCategoryStep c calories protein fat).meat = c.meat ∧
    (healthCategoryStep c calories protein fat).vegetables = c.vegetables ∧
    (healthCategoryStep c calories protein fat).grains = c.grains ∧
    (healthCategoryStep c calories protein fat).dairy = c.dairy ∧
    (healthCategoryStep c calories protein fat).fruits = c.fruits ∧
    (healthCategoryStep c calories protein fat).desserts = c.desserts := by
  unfold healthCategoryStep
  split <;> split <;> split <;> split <;> simp

theorem baseCategoryStep_total (c : Categories) (text : List Char) :
    baseTotal (baseCategoryStep c text) ≤ baseTotal c + 1 := by
  unfold baseCategoryStep baseTotal
  split
  · simp; omega
  · split
    · simp; omega
    · split
      · simp; omega
      · split
        · simp; omega
        · split
          · simp; omega
          · split
            · simp; omega
            · split
              · simp; omega
              · omega

theorem baseCategoryStep_seafood (c : Categories) (text : List Char)
    (h : hasAnyKw text seafoodKws = true) :
    baseCategoryStep c text = { c with seafood := c.seafood + 1 } := by
  unfold baseCategoryStep
  rw [if_pos h]

theorem categorizeItem_base_total (c : Categories) (item : MenuItem) :
    baseTotal (categorizeItem c item) ≤ baseTotal c + 1 := by
  unfold categorizeItem
  have hv := vegCategoryStep_base (baseCategoryStep c (combinedText item)) (combinedText item)
  have hh := healthCategoryStep_base
    (vegCategoryStep (baseCategoryStep c (combinedText item)) (combinedText item))
    (item.calories.getD 0) (item.protein_g.getD 0) (item.fat_g.getD 0)
  have hb := baseCategoryStep_total c (combinedText item)
  unfold baseTotal at hb ⊢
  obtain ⟨v1, v2, v3, v4, v5, v6, v7⟩ := hv
  obtain ⟨h1, h2, h3, h4, h5, h6, h7⟩ := hh
  rw [h1, h2, h3, h4, h5, h6, h7, v1, v2, v3, v4, v5, v6, v7]
  exact hb

end Menubot

namespace Menubot

/-- C6: for every sequence of menu items, the ranking engine rankItems
returns a permutation of the index range [0, items.length): every index
appears exactly once, none is dropped or duplicated, the output length
equals the input length, and ranking the empty sequence yields the empty
sequence. -/
theorem rankItems_full_permutation (items : List MenuItem) :
    List.Perm (rankItems items) (List.range items.length) ∧
    (rankItems items).length = items.length ∧
    rankItems ([] : List MenuItem) = [] := by
  refine ⟨rankItems_perm items, ?_, ?_⟩
  · have h := (rankItems_perm items).length_eq
    simpa using h
  · simp [rankItems]

/-- C7: the aggregation engine yields 0 (respectively the all-zero macro
summary) on an empty index sequence, and indices outside the item range
contribute nothing: dropping them leaves both sums unchanged, so neither
function ever signals an error; in particular summing devItems over the
indices 0 and 99 equals summing over index 0 alone. -/
theorem sums_empty_and_out_of_range (items : List MenuItem) (indices : List ℤ) :
    sumPrice items [] = 0 ∧ sumMacros items [] = zeroMacros ∧
    sumPrice items indices = sumPrice items (indices.filter (idxInRangeZ items.length)) ∧
    sumMacros items indices = sumMacros items (indices.filter (idxInRangeZ items.length)) ∧
    sumMacros devItems [0, 99] = sumMacros devItems [0] := by
  refine ⟨rfl, rfl, ?_, ?_, ?_⟩
  · unfold sumPrice
    refine (foldl_filter_of_invariant _ _ ?_ indices 0).symm
    intro b a hp
    rw [jsGet_eq_none_of_not_inRange items a hp]
    simp
  · unfold sumMacros
    refine (foldl_filter_of_invariant _ _ ?_ indices zeroMacros).symm
    intro b a hp
    rw [jsGet_eq_none_of_not_inRange items a hp]
    simp
  · simp [sumMacros, devItems, jsGet, zeroMacros]

/-- C8: the scoring engine computes the linear formula
2 * protein - 0.8 * fat - 0.005 * calories - 0.3 * carbs with missing
fields read as 0, hence it is strictly increasing in protein and strictly
decreasing in fat, calories and carbs, the other fields held fixed. -/
theorem score_formula_monotone (it : MenuItem) (p q : ℚ) :
    scoreItem it = 2 * it.protein_g.getD 0 - (8 / 10) * it.fat_g.getD 0
        - (5 / 1000) * it.calories.getD 0 - (3 / 10) * it.carbs_g.getD 0 ∧
    (p < q → scoreItem { it with protein_g := some p }
      < scoreItem { it with protein_g := some q }) ∧
    (p < q → scoreItem { it with fat_g := some q } < scoreItem { it with fat_g := some p }) ∧
    (p < q → scoreItem { it with calories := some q }
      < scoreItem { it with calories := some p }) ∧
    (p < q → scoreItem { it with carbs_g := some q }
      < scoreItem { it with carbs_g := some p }) := by
  refine ⟨by simp only [scoreItem]; ring, ?_, ?_, ?_, ?_⟩ <;>
    intro h <;> simp only [scoreItem, Option.getD_some] <;> linarith

/-- C2 (amended): the validator is total and never signals an error as soon
as the items field of the raw input is present as a sequence all of whose
entries are proper objects (no entry null or undefined); repair then always
produces an Analysis. -/
theorem validate_total_on_array_items (parsed : RawAnalysis)
    (rawItems : List (Option RawItem)) (hits : parsed.items = some rawItems)
    (hall : rawItems.all Option.isSome = true) :
    (validateMenuData parsed).toOption.isSome = true := by
  obtain ⟨objs, hobjs⟩ := allSome_of_all_isSome rawItems hall
  rw [validateMenuData_ok_of_objs parsed rawItems objs hits hobjs]
  rfl

/-- Counterexample to C2 as stated: on a raw input whose items field is
missing or not a sequence, validateMenuData raises a TypeError (the .map
access fails), and on an items array holding a null entry the property
access inside the map callback raises a TypeError as well; neither returns
a repaired Analysis. -/
theorem validate_missing_items_raises :
    (validateMenuData noItemsRaw).toOption = none ∧ noItemsRaw.items = none ∧
    (validateMenuData nullItemRaw).toOption = none ∧
    nullItemRaw.items = some [none] := by
  exact ⟨rfl, rfl, rfl, rfl⟩

/-- Witness for the amended C2 at the empty item sequence. -/
theorem validate_total_on_array_items_witness :
    emptyOkRaw.items = some [] ∧
    (([] : List (Option RawItem)).all Option.isSome = true) ∧
    (validateMenuData emptyOkRaw).toOption.isSome = true :=
  ⟨rfl, rfl, validate_total_on_array_items emptyOkRaw [] rfl rfl⟩

end Menubot

namespace Menubot

theorem jround_num (x : ℚ) : jround (.num x) = .num ((round x : ℤ) : ℚ) := rfl

theorem fixCalories_of_zero_calories (i : RawItem) (h : i.calories = .num 0) :
    fixCalories i = i := by
  apply fixCalories_of_cond_false
  unfold fixCond
  rw [h, jor_num_zero, jgt_num]
  simp

theorem repairedItem_facts (r : RawItem) :
    ((fixCalories (coerceItem r)).name.truthy = true ∧
     (fixCalories (coerceItem r)).name.isNullOrUndef = false ∧
     (fixCalories (coerceItem r)).description.isNullOrUndef = false ∧
     (fixCalories (coerceItem r)).price.isNullOrUndef = false ∧
     (fixCalories (coerceItem r)).calories.isNullOrUndef = false ∧
     (fixCalories (coerceItem r)).protein_g.isNullOrUndef = false ∧
     (fixCalories (coerceItem r)).carbs_g.isNullOrUndef = false ∧
     (fixCalories (coerceItem r)).fat_g.isNullOrUndef = false) ∧
    ((r.name.truthy = false → (fixCalories (coerceItem r)).name = .str "Unknown Item") ∧
     (r.description.truthy = false → (fixCalories (coerceItem r)).description = .str "") ∧
     (r.price.truthy = false → (fixCalories (coerceItem r)).price = .num 0) ∧
     (r.calories.truthy = false → (fixCalories (coerceItem r)).calories = .num 0) ∧
     (r.protein_g.truthy = false → (fixCalories (coerceItem r)).protein_g = .num 0) ∧
     (r.carbs_g.truthy = false → (fixCalories (coerceItem r)).carbs_g = .num 0) ∧
     (r.fat_g.truthy = false → (fixCalories (coerceItem r)).fat_g = .num 0)) := by
  obtain ⟨k1, k2, k3, k4, k5, k6⟩ := fixCalories_keeps (coerceItem r)
  have hcoerce : (coerceItem r).name = jor r.name (.str "Unknown Item") := rfl
  have hname : (fixCalories (coerceItem r)).name.truthy = true := by
    rw [k1, hcoerce]
    exact jor_truthy_of_truthy _ _ (by decide)
  constructor
  · refine ⟨hname, truthy_not_nullOrUndef _ hname, ?_, ?_, ?_, ?_, ?_, ?_⟩
    · rw [k2]
      exact jor_not_nullOrUndef _ _ (by decide)
    · rw [k3]
      exact jor_not_nullOrUndef _ _ (by decide)
    · rcases fixCalories_eq (coerceItem r) with h | ⟨x, -, h⟩
      · rw [h]
        exact jor_not_nullOrUndef _ _ (by decide)
      · rw [h]
        rfl
    · rw [k4]
      exact jor_not_nullOrUndef _ _ (by decide)
    · rw [k5]
      exact jor_not_nullOrUndef _ _ (by decide)
    · rw [k6]
      exact jor_not_nullOrUndef _ _ (by decide)
  · refine ⟨?_, ?_, ?_, ?_, ?_, ?_, ?_⟩
    · intro h
      rw [k1, hcoerce, jor_of_falsy _ _ h]
    · intro h
      rw [k2]
      exact jor_of_falsy _ _ h
    · intro h
      rw [k3]
      exact jor_of_falsy _ _ h
    · intro h
      have hz : (coerceItem r).calories = .num 0 := jor_of_falsy _ _ h
      rw [fixCalories_of_zero_calories _ hz, hz]
    · intro h
      rw [k4]
      exact jor_of_falsy _ _ h
    · intro h
      rw [k5]
      exact jor_of_falsy _ _ h
    · intro h
      rw [k6]
      exact jor_of_falsy _ _ h

/- Concrete evaluations of the validator on the scenario inputs. -/

theorem repairItems_scenarioD : repairItems [itemD] = [itemDF] := by
  norm_num [repairItems, fixCalories, fixCond, calcCaloriesOf, coerceItem, itemD, itemDF, jor,
    JVal.truthy, calcCalories, jmul, jadd, jsub, jabs, jgt, jround, JVal.toNumber]

theorem rankItemsR_itemDF : rankItemsR [itemDF] = [0] := by
  norm_num [rankItemsR, itemDF, List.enum]

theorem validateMenuData_scenarioD : validateMenuData scenarioD = .ok scenarioDOut := by
  simp [validateMenuData, scenarioD, scenarioDOut, allSome, repairItems_scenarioD, repairRank,
    rankItemsR_itemDF, idxInRange]

theorem repairItems_oneItem : repairItems [{}] = [emptyItemF] := by
  norm_num [repairItems, fixCalories, fixCond, calcCaloriesOf, coerceItem, emptyItemF, jor,
    JVal.truthy, calcCalories, jmul, jadd, jsub, jabs, jgt, jround, JVal.toNumber]

theorem rankItemsR_emptyItemF : rankItemsR [emptyItemF] = [0] := by
  norm_num [rankItemsR, emptyItemF, List.enum]

theorem validateMenuData_oneItemRaw : validateMenuData oneItemRaw = .ok oneItemOut := by
  simp [validateMenuData, oneItemRaw, oneItemOut, allSome, repairItems_oneItem, repairRank,
    rankItemsR_emptyItemF, idxInRange]

theorem validateMenuDataS_W : validateMenuDataS storeW parsedW = .ok (storeW2, outW) := by
  have hfix : fixCalories (coerceItem itemD) = itemDF := by
    have h := repairItems_scenarioD
    simp only [repairItems, List.map_cons, List.map_nil, List.cons.injEq, and_true] at h
    exact h
  have hr1 : List.range 1 = [0] := rfl
  norm_num [validateMenuDataS, storeW, parsedW, storeW2, outW, hfix, repairRank,
    rankItemsR_itemDF, idxInRange, hr1, List.set, List.foldl_cons, List.foldl_nil,
    List.getElem?_cons_zero, List.getElem?_cons_succ]

end Menubot

namespace Menubot

/-- C1 (amended): the health_rank of a validated Analysis is a full
permutation of the item indices exactly under the regeneration condition of
the source: whenever the in-range entries of the raw health_rank do not
number exactly items.length (this covers a missing, non-array, empty or too
short rank, and forced regeneration after dropping out-of-range entries),
or number exactly items.length while being duplicate-free integers.  A raw
rank whose in-range entries number exactly items.length but contain
duplicates, or fractional values, is kept as-is by the source and need not
be a permutation. -/
theorem validate_health_rank_full_permutation (parsed : RawAnalysis) (v : Analysis)
    (hok : validateMenuData parsed = .ok v)
    (hrep : rankRepairable v.items.length parsed.health_rank) :
    permOfRange v.health_rank v.items.length := by
  obtain ⟨rawItems, objs, hp, hall, hv⟩ := validateMenuData_ok_inv parsed v hok
  subst hv
  dsimp only at hrep ⊢
  rcases repairRank_cases (repairItems objs) parsed.health_rank
    with h | ⟨l, hl, hne, h, hlen⟩
  · rw [h]
    exact regen_perm _
  · rw [h]
    rw [hl] at hrep
    simp only [rankRepairable] at hrep
    rcases hrep with hbad | ⟨hnodup, hden⟩
    · exact absurd hlen hbad
    · exact perm_range_of_nodup _ _ hnodup hlen (fun i hi => List.of_mem_filter hi) hden

/-- Counterexample to C1 as stated: a raw health_rank with a duplicated
in-range index and exactly as many in-range entries as items survives
filtering untouched, so the validated health_rank is [0, 0] for two items —
not a permutation of the index range.  The same happens when an
out-of-range entry is also present ([0, 0, 5] filters to the kept [0, 0]),
and when a fractional in-range entry fills a slot ([1/2, 1] is kept
verbatim), so neither dropping out-of-range values nor freedom from
duplicates alone restores the permutation property. -/
theorem validate_health_rank_duplicate_counterexample :
    (validateMenuData dupRankRaw).toOption.map (fun v => (v.items.length, v.health_rank))
      = some (2, [0, 0]) ∧ ¬ permOfRange [0, 0] 2 ∧
    (validateMenuData dupOutRankRaw).toOption.map (fun v => v.health_rank)
      = some [0, 0] ∧
    (validateMenuData fracRankRaw).toOption.map (fun v => v.health_rank)
      = some [1 / 2, 1] ∧ ¬ permOfRange [1 / 2, 1] 2 := by
  have hfrac : ¬ permOfRange [1 / 2, 1] 2 := by
    intro hperm
    unfold permOfRange at hperm
    have hmem := hperm.mem_iff.1 (List.mem_cons_self (1 / 2 : ℚ) [1])
    have h2 : (List.range 2).map (Nat.cast : ℕ → ℚ) = [0, 1] := by
      have hr : List.range 2 = [0, 1] := rfl
      rw [hr]
      norm_num
    rw [h2] at hmem
    norm_num at hmem
  refine ⟨?_, by decide, ?_, ?_, hfrac⟩ <;>
    norm_num [validateMenuData, dupRankRaw, dupOutRankRaw, fracRankRaw, allSome, repairItems,
      repairRank, idxInRange, Except.toOption, coerceItem, fixCalories, fixCond, calcCaloriesOf,
      calcCalories, jor, JVal.truthy, jmul, jadd, jsub, jabs, jgt, jround, JVal.toNumber]

/-- Witness for the amended C1 at a one-item input with an out-of-range raw
rank. -/
theorem validate_health_rank_full_permutation_witness :
    validateMenuData oneItemRaw = .ok oneItemOut ∧
    permOfRange oneItemOut.health_rank oneItemOut.items.length :=
  ⟨validateMenuData_oneItemRaw,
   validate_health_rank_full_permutation oneItemRaw oneItemOut validateMenuData_oneItemRaw
     (by unfold rankRepairable; exact Or.inl (by decide))⟩

/-- C4: validation is idempotent — feeding a validated Analysis back to
validateMenuData returns it unchanged, so repair is a fixed point. -/
theorem validate_idempotent (x : RawAnalysis) (v : Analysis)
    (h : validateMenuData x = .ok v) : validateMenuData v.toRaw = .ok v := by
  obtain ⟨rawItems, objs, hp, hall, hv⟩ := validateMenuData_ok_inv x v h
  subst hv
  have h2 := validateMenuData_ok_of_objs
    (Analysis.toRaw
      { items := repairItems objs
        health_rank := repairRank (repairItems objs) x.health_rank
        combos := x.combos
        notes := x.notes })
    ((repairItems objs).map some) (repairItems objs) rfl (allSome_map_some _)
  rw [h2]
  have hri : repairItems (repairItems objs) = repairItems objs :=
    repairItems_idem objs
  have hrr : repairRank (repairItems (repairItems objs))
      (some (repairRank (repairItems objs) x.health_rank))
      = repairRank (repairItems objs) x.health_rank := by
    rw [hri]
    exact repairRank_self _ _ (repairRank_mem (repairItems objs) x.health_rank)
      (repairRank_length (repairItems objs) x.health_rank)
  simp only [Analysis.toRaw, Except.ok.injEq, Analysis.mk.injEq]
  exact ⟨hri, hrr, trivial, trivial⟩

/-- Witness for C4 at the scenario D input. -/
theorem validate_idempotent_witness :
    validateMenuData scenarioD = .ok scenarioDOut ∧
    validateMenuData scenarioDOut.toRaw = .ok scenarioDOut :=
  ⟨validateMenuData_scenarioD,
   validate_idempotent scenarioD scenarioDOut validateMenuData_scenarioD⟩

end Menubot

namespace Menubot

theorem repairItems_strPrice : repairItems [{ price := .str "abc" }] = [strPriceItemF] := by
  norm_num [repairItems, fixCalories, fixCond, calcCaloriesOf, coerceItem, strPriceItemF, jor,
    JVal.truthy, calcCalories, jmul, jadd, jsub, jabs, jgt, jround, JVal.toNumber, strToNumber]
  intro h
  exact absurd h (by decide)

theorem rankItemsR_strPrice : rankItemsR [strPriceItemF] = [0] := by
  norm_num [rankItemsR, strPriceItemF, List.enum]

theorem validateMenuData_strPrice :
    validateMenuData strPriceRaw =
      .ok { items := [strPriceItemF], health_rank := [0], combos := [], notes := "" } := by
  simp [validateMenuData, strPriceRaw, allSome, repairItems_strPrice, repairRank,
    rankItemsR_strPrice, idxInRange]

/-- C3 (amended): after validation every item field is filled by JavaScript
logical-or with its typed default: the name is truthy (never empty, null or
undefined), no field is null or undefined, and a falsy raw field (missing,
null, 0, NaN, false or the empty string) becomes its default — the
placeholder name, the empty description, or numeric 0.  A truthy
non-numeric raw value, however, is passed through unchanged rather than
coerced to a number. -/
theorem validate_item_field_coercion (parsed : RawAnalysis) (rawItems : List RawItem)
    (v : Analysis) (hits : parsed.items = some (rawItems.map some))
    (hok : validateMenuData parsed = .ok v) :
    v.items.length = rawItems.length ∧
    (∀ it ∈ v.items,
      it.name.truthy = true ∧ it.name.isNullOrUndef = false ∧
      it.description.isNullOrUndef = false ∧ it.price.isNullOrUndef = false ∧
      it.calories.isNullOrUndef = false ∧ it.protein_g.isNullOrUndef = false ∧
      it.carbs_g.isNullOrUndef = false ∧ it.fat_g.isNullOrUndef = false) ∧
    (∀ (i : ℕ) (hi : i < rawItems.length) (hv2 : i < v.items.length),
      ((rawItems.get ⟨i, hi⟩).name.truthy = false →
        (v.items.get ⟨i, hv2⟩).name = .str "Unknown Item") ∧
      ((rawItems.get ⟨i, hi⟩).description.truthy = false →
        (v.items.get ⟨i, hv2⟩).description = .str "") ∧
      ((rawItems.get ⟨i, hi⟩).price.truthy = false →
        (v.items.get ⟨i, hv2⟩).price = .num 0) ∧
      ((rawItems.get ⟨i, hi⟩).calories.truthy = false →
        (v.items.get ⟨i, hv2⟩).calories = .num 0) ∧
      ((rawItems.get ⟨i, hi⟩).protein_g.truthy = false →
        (v.items.get ⟨i, hv2⟩).protein_g = .num 0) ∧
      ((rawItems.get ⟨i, hi⟩).carbs_g.truthy = false →
        (v.items.get ⟨i, hv2⟩).carbs_g = .num 0) ∧
      ((rawItems.get ⟨i, hi⟩).fat_g.truthy = false →
        (v.items.get ⟨i, hv2⟩).fat_g = .num 0)) := by
  obtain ⟨rawItems2, objs, hp2, hall, hveq⟩ := validateMenuData_ok_inv parsed v hok
  rw [hits] at hp2
  injection hp2 with hp2
  subst hp2
  rw [allSome_map_some] at hall
  injection hall with hall
  subst hall
  subst hveq
  dsimp only
  refine ⟨by simp [repairItems], ?_, ?_⟩
  · intro it hit
    simp only [repairItems, List.map_map, List.mem_map, Function.comp] at hit
    obtain ⟨r, -, rfl⟩ := hit
    exact (repairedItem_facts r).1
  · intro i hi hv2
    have hget : (repairItems rawItems).get ⟨i, hv2⟩
        = fixCalories (coerceItem (rawItems.get ⟨i, hi⟩)) := by
      simp [repairItems, List.get_eq_getElem, List.getElem_map]
    rw [hget]
    exact (repairedItem_facts (rawItems.get ⟨i, hi⟩)).2

/-- Counterexample to C3 as stated: a truthy non-numeric price — the string
abc — survives validation unchanged instead of being coerced to a number. -/
theorem validate_nonnumeric_price_counterexample :
    (validateMenuData strPriceRaw).toOption.map (fun v => v.items.map RawItem.price)
      = some [.str "abc"] ∧ (JVal.str "abc").isNum = false := by
  refine ⟨?_, rfl⟩
  rw [validateMenuData_strPrice]
  simp [Except.toOption, strPriceItemF]

/-- Witness for the amended C3 at the one-item input with every field
absent. -/
theorem validate_item_field_coercion_witness :
    validateMenuData oneItemRaw = .ok oneItemOut ∧
    oneItemOut.items.length = 1 ∧
    (oneItemOut.items.get ⟨0, by decide⟩).name = .str "Unknown Item" ∧
    (oneItemOut.items.get ⟨0, by decide⟩).price = .num 0 := by
  have h := validate_item_field_coercion oneItemRaw [{}] oneItemOut rfl
    validateMenuData_oneItemRaw
  have h3 := h.2.2 0 (by decide) (by decide)
  exact ⟨validateMenuData_oneItemRaw, h.1, h3.1 rfl, h3.2.2.1 rfl⟩

end Menubot

namespace Menubot

/-- C5: for an item with numeric macro and calorie fields, the validator
recomputes the expected calories protein*4 + carbs*4 + fat*9 and overwrites
the stated calories with the rounded expected value exactly when the stated
calories are positive and differ from the expected value by more than 100;
otherwise the calories are left as they are.  On the scenario D input the
item with calories 900 and macros 10/10/5 comes out with calories 125 and
health_rank [0]. -/
theorem validate_calorie_crosscheck (item : RawItem) (p c f cal : ℚ)
    (hp : item.protein_g = .num p) (hc : item.carbs_g = .num c)
    (hf : item.fat_g = .num f) (hcal : item.calories = .num cal) :
    fixCalories item =
      (if 0 < cal ∧ 100 < |p * 4 + c * 4 + f * 9 - cal| then
        { item with calories := .num ((round (p * 4 + c * 4 + f * 9) : ℤ) : ℚ) }
      else item) ∧
    validateMenuData scenarioD = .ok scenarioDOut := by
  refine ⟨?_, validateMenuData_scenarioD⟩
  have hCC : calcCaloriesOf item = .num (p * 4 + c * 4 + f * 9) := by
    unfold calcCaloriesOf calcCalories
    rw [hp, hc, hf, jor_num_zero, jor_num_zero, jor_num_zero]
    simp [jmul, jadd, JVal.toNumber]
  have hcond : fixCond item
      = (decide (0 < cal) && decide (100 < |p * 4 + c * 4 + f * 9 - cal|)) := by
    unfold fixCond
    rw [hcal, jor_num_zero, hCC, jgt_num,
      jsub_num_of (JVal.num (p * 4 + c * 4 + f * 9)) (p * 4 + c * 4 + f * 9) cal rfl,
      jabs_num, jgt_num]
  unfold fixCalories
  rw [hcond, hCC, jround_num]
  by_cases h1 : 0 < cal <;> by_cases h2 : 100 < |p * 4 + c * 4 + f * 9 - cal| <;>
    simp [h1, h2]

/-- Witness for C5 at the scenario D item: 900 stated calories against an
expected 125 get overwritten with 125. -/
theorem validate_calorie_crosscheck_witness :
    fixCalories itemD = { itemD with calories := .num 125 } ∧
    validateMenuData scenarioD = .ok scenarioDOut := by
  have h := validate_calorie_crosscheck itemD 10 10 5 900 rfl rfl rfl rfl
  refine ⟨?_, h.2⟩
  rw [h.1, if_pos (by norm_num)]
  norm_num

/-- C9 (amended): the seven base food categories of the summarizer are
counted by an else-if chain in the fixed priority order seafood, meat,
vegetables, grains, dairy, fruits, desserts, so they are mutually
exclusive: each item increments at most one base counter, and an item whose
text matches a seafood keyword increments only seafood — its vegetables
count stays unchanged even when a vegetables keyword also matches. -/
theorem base_categories_mutually_exclusive (c : Categories) (item : MenuItem) :
    baseTotal (categorizeItem c item) ≤ baseTotal c + 1 ∧
    (hasAnyKw (combinedText item) seafoodKws = true →
      (categorizeItem c item).seafood = c.seafood + 1 ∧
      (categorizeItem c item).vegetables = c.vegetables) := by
  refine ⟨categorizeItem_base_total c item, ?_⟩
  intro hsf
  unfold categorizeItem
  have hv := vegCategoryStep_base (baseCategoryStep c (combinedText item)) (combinedText item)
  have hh := healthCategoryStep_base
    (vegCategoryStep (baseCategoryStep c (combinedText item)) (combinedText item))
    (item.calories.getD 0) (item.protein_g.getD 0) (item.fat_g.getD 0)
  constructor
  · rw [hh.1, hv.1, baseCategoryStep_seafood c _ hsf]
  · rw [hh.2.2.1, hv.2.2.1, baseCategoryStep_seafood c _ hsf]

/-- Counterexample to C9 as stated: the item named Salmon Salad matches both
a seafood keyword and a vegetables keyword, yet only the seafood counter is
incremented; the vegetables counter stays 0. -/
theorem base_categories_counterexample :
    hasAnyKw (combinedText salmonSalad) seafoodKws = true ∧
    hasAnyKw (combinedText salmonSalad) vegetableKws = true ∧
    (generateDietaryInfoCategories [salmonSalad]).seafood = 1 ∧
    (generateDietaryInfoCategories [salmonSalad]).vegetables = 0 := by
  refine ⟨by decide, by decide, ?_, ?_⟩ <;> rfl

/-- Witness for the amended C9 at the Salmon Salad item. -/
theorem base_categories_mutually_exclusive_witness :
    baseTotal (categorizeItem {} salmonSalad) ≤ baseTotal {} + 1 ∧
    (categorizeItem {} salmonSalad).seafood = Categories.seafood {} + 1 ∧
    (categorizeItem {} salmonSalad).vegetables = Categories.vegetables {} := by
  have h := base_categories_mutually_exclusive {} salmonSalad
  exact ⟨h.1, (h.2 (by decide)).1, (h.2 (by decide)).2⟩

/-- C10: the store-passing validator never writes to the item objects of its
input: every store cell that existed before the call is unchanged after it,
and the items of the returned Analysis are all freshly allocated cells. -/
theorem validate_does_not_mutate_store (store : List RawItem) (parsed : RawAnalysisS)
    (store2 : List RawItem) (out : AnalysisS)
    (hok : validateMenuDataS store parsed = .ok (store2, out)) :
    (∀ a, a < store.length → store2.getD a emptyRawItem = store.getD a emptyRawItem) ∧
    (∀ a ∈ out.items, store.length ≤ a) := by
  cases hp : parsed.items with
  | none =>
    rw [validateMenuDataS, hp] at hok
    exact absurd hok (by simp)
  | some addrs =>
    rw [validateMenuDataS, hp] at hok
    simp only [Except.ok.injEq, Prod.mk.injEq] at hok
    obtain ⟨hst, hout⟩ := hok
    constructor
    · intro a ha
      rw [← hst]
      have hlow := foldl_set_getD_low
        (fun s x => fixCalories (s.getD x emptyRawItem)) store.length
        ((List.range ((addrs.map fun a => store.getD a emptyRawItem).map coerceItem).length).map
          fun i => store.length + i)
        (store ++ (addrs.map fun a => store.getD a emptyRawItem).map coerceItem)
        (by
          intro x hx
          simp only [List.mem_map] at hx
          obtain ⟨j, -, rfl⟩ := hx
          omega)
        a ha
      rw [hlow]
      exact getD_append_low store _ a ha
    · intro a haIn
      rw [← hout] at haIn
      simp only [List.mem_map] at haIn
      obtain ⟨j, -, rfl⟩ := haIn
      omega

/-- Witness for C10 at a one-object store: the input cell is untouched and
the returned item address is fresh. -/
theorem validate_does_not_mutate_store_witness :
    storeW2.getD 0 emptyRawItem = storeW.getD 0 emptyRawItem ∧ storeW.length ≤ 1 := by
  have h := validate_does_not_mutate_store storeW parsedW storeW2 outW validateMenuDataS_W
  exact ⟨h.1 0 (by decide), h.2 1 (by decide)⟩

end Menubot

namespace Menubot

/-- Witness for C8 at a bare item and the values 1 < 2. -/
theorem score_formula_monotone_witness :
    scoreItem ({ name := "A", protein_g := some 1 } : MenuItem)
      < scoreItem { name := "A", protein_g := some 2 } ∧
    scoreItem ({ name := "A", fat_g := some 2 } : MenuItem)
      < scoreItem { name := "A", fat_g := some 1 } ∧
    scoreItem ({ name := "A", calories := some 2 } : MenuItem)
      < scoreItem { name := "A", calories := some 1 } ∧
    scoreItem ({ name := "A", carbs_g := some 2 } : MenuItem)
      < scoreItem { name := "A", carbs_g := some 1 } := by
  have h := score_formula_monotone { name := "A" } 1 2
  exact ⟨h.2.1 (by norm_num), h.2.2.1 (by norm_num), h.2.2.2.1 (by norm_num),
    h.2.2.2.2 (by norm_num)⟩

end Menubot
